import Mathlib

/-!
# Verification of the InterpoNet bidirectional-consensus core (`utils.py`)

Shallow embedding of the four core operations of `src/utils.py` —
`downscale_all`, `inverse_of_map`, `mean_map_of_and_rev_ba`,
`create_mean_map_ab_ba` — and of the refinement-invocation wrapper
`calc_variational_inference_map`, together with theorems settling the
spec's claims about them.

Modelling conventions:
* A flow field (`h × w × 2` numpy array) is a `Grid (ℚ × ℚ)`: a total
  function from (row, column) indices to the two flow channels; the
  spatial dimensions `h`, `w` are passed separately where the source
  consults `.shape`.
* A validity mask is a `Grid ℚ` holding the numeric sentinels `-1` / `+1`
  exactly as the source stores them in a float array.
* Floating NaN, which the source uses as a transient "missing" marker,
  is embedded as `Option ℚ` (`none` = NaN); numpy's `nanmean` becomes an
  average over the `some` entries, `none` when there are none.
* Real arithmetic is embedded as exact rational arithmetic `ℚ`.
* numpy arrays are passed by reference in Python, so each embedded
  operation also reports the final contents of its input arrays
  (`..._after` fields): `downscale_all` mutates its `img` argument in
  place (lines 16–17 of the source) before cropping, while
  `inverse_of_map` writes only its freshly allocated `map_count` /
  `rev_of_map` arrays (lines 44–45, 54–55) and `mean_map_of_and_rev_ba`
  writes only copies (lines 68, 70), so those return their inputs
  unchanged.
* The optional edge-map branch of `downscale_all` (lines 29–31) delegates
  to an external resampling library (`skimage.transform.rescale`) and is
  outside the scope of every claim; the embedding covers the
  `edges = None` path.
-/

/-- A 2-D array, indexed row-first, as a total function on `ℕ × ℕ`. -/
abbrev Grid (α : Type) : Type := ℕ → ℕ → α

/-- In-place single-element assignment `g[y, x] = v` on a `Grid`. -/
def updateGrid {α : Type} (g : Grid α) (y x : ℕ) (v : α) : Grid α :=
  fun y' x' => if y' = y ∧ x' = x then v else g y' x'

/-- The row-major traversal `for y in range(h): for x in range(w)` as a list
of `(y, x)` index pairs. -/
def rowMajor (h w : ℕ) : List (ℕ × ℕ) :=
  (List.range h).flatMap (fun y => (List.range w).map (fun x => (y, x)))

/-- Embedding of `np.nanmean` of a 1-D slice: the arithmetic mean of the non-NaN entries,
NaN (`none`) when every entry is NaN. -/
def nanmean (l : List (Option ℚ)) : Option ℚ :=
  let vs := l.filterMap id
  if vs.length = 0 then none else some (vs.sum / (vs.length : ℚ))

/-- Embedding of `np.nanmean` across a stacked pair of entries (axis of length 2), as used
in `mean_map_of_and_rev_ba` line 73. -/
def nanmean2 (a b : Option ℚ) : Option ℚ :=
  match a, b with
  | some v, some u => some ((v + u) / 2)
  | some v, none => some v
  | none, some u => some u
  | none, none => none

/-! ## `downscale_all` (src/utils.py lines 5–33) -/

/-- Result of `downscale_all`: the downscaled flow map and mask, the output
spatial dimensions, and the caller-visible contents of the input `img`
array after the call (the source mutates `img` in place on lines 16–17
before rebinding the name to a cropped view on line 19). -/
structure DownscaleResult where
  out_h : ℕ
  out_w : ℕ
  img : Grid (ℚ × ℚ)
  mask : Grid ℚ
  img_input_after : Grid (Option ℚ × Option ℚ)

/-- Lines 16–17: `img[:, :, 0][mask == -1] = np.nan` and likewise for
channel 1 — the two flow channels of every invalid pixel become NaN, in
the caller's array. -/
def maskToNan (img : Grid (ℚ × ℚ)) (mask : Grid ℚ) : Grid (Option ℚ × Option ℚ) :=
  fun y x => if mask y x = -1 then (none, none)
    else (some (img y x).1, some (img y x).2)

/-- Embedding of `downscale_all img mask downscale` (lines 5–33, `edges = None`
path). Invalid pixels are NaN-ed in place; the field is cropped to the
largest multiple of `downscale` in each spatial dimension (line 19); it is
partitioned into `downscale × downscale × 2` blocks (line 21) whose
per-channel NaN-ignoring means form the output (line 22); the new mask is
`+1` where the result is a number and `-1` where it is NaN (lines 24–26),
and NaN results are replaced by `0` (line 27). -/
def downscale_all (h w : ℕ) (img : Grid (ℚ × ℚ)) (mask : Grid ℚ)
    (downscale : ℕ) : DownscaleResult :=
  let img_nan := maskToNan img mask
  let out_h := (h - h % downscale) / downscale
  let out_w := (w - w % downscale) / downscale
  let blockMean := fun (c : Option ℚ × Option ℚ → Option ℚ) (i j : ℕ) =>
    nanmean ((List.range downscale).flatMap (fun r =>
      (List.range downscale).map (fun s =>
        c (img_nan (i * downscale + r) (j * downscale + s)))))
  let mean_img : Grid (Option ℚ × Option ℚ) :=
    fun i j => (blockMean Prod.fst i j, blockMean Prod.snd i j)
  { out_h := out_h
    out_w := out_w
    img := fun i j => ((mean_img i j).1.getD 0, (mean_img i j).2.getD 0)
    mask := fun i j => if (mean_img i j).1 = none then -1 else 1
    img_input_after := img_nan }

/-! ## `inverse_of_map` (src/utils.py lines 36–56) -/

/-- The loop state of `inverse_of_map`: the per-destination contribution
counter `map_count` (line 44) and the accumulating inverse flow map
`rev_of_map` (line 45). -/
structure InvState where
  map_count : Grid ℕ
  rev_of_map : Grid (ℚ × ℚ)

/-- The destination coordinate of lines 49–52: `(i*scale + d) / scale`
rounded half-up, `int(np.floor(v + 0.5))`. -/
def rev_coord (scale : ℚ) (i : ℕ) (d : ℚ) : ℤ :=
  ⌊((i : ℚ) * scale + d) / scale + 1 / 2⌋

/-- One iteration of the double loop of `inverse_of_map` (lines 48–55) at
source pixel `p = (y, x)`: if the pixel is valid (`of_mask[y, x] == 1`) and
its rounded destination satisfies `0 < rev_x < w and 0 < rev_y < h`, bump the
destination's count and move its running value toward the negated source flow
by `1 / count` of the remaining gap:
`rev_of_map[ry, rx] += (-rev_of_map[ry, rx] - of_map[y, x]) / map_count[ry, rx]`. -/
def invStep (h w : ℕ) (of_map : Grid (ℚ × ℚ)) (of_mask : Grid ℚ) (scale : ℚ)
    (st : InvState) (p : ℕ × ℕ) : InvState :=
  if of_mask p.1 p.2 = 1 then
    let d := of_map p.1 p.2
    let rev_x : ℤ := rev_coord scale p.2 d.1
    let rev_y : ℤ := rev_coord scale p.1 d.2
    if 0 < rev_x ∧ rev_x < (w : ℤ) ∧ 0 < rev_y ∧ rev_y < (h : ℤ) then
      let ry := rev_y.toNat
      let rx := rev_x.toNat
      let c := st.map_count ry rx + 1
      let r := st.rev_of_map ry rx
      { map_count := updateGrid st.map_count ry rx c
        rev_of_map := updateGrid st.rev_of_map ry rx
          (r.1 + (-r.1 - d.1) / (c : ℚ), r.2 + (-r.2 - d.2) / (c : ℚ)) }
    else st
  else st

/-- The initial loop state of `inverse_of_map`: `map_count` all zero
(line 44) and `rev_of_map` all `(0, 0)` (line 45). -/
def invInit : InvState :=
  { map_count := fun _ _ => 0, rev_of_map := fun _ _ => (0, 0) }

/-- Result of `inverse_of_map`: the inverse flow map, its mask, and the
caller-visible contents of the input arrays after the call (the source
writes only its freshly allocated `map_count` and `rev_of_map`, never
`of_map` or `of_mask`). -/
structure InvResult where
  rev_of_map : Grid (ℚ × ℚ)
  rev_mask : Grid ℚ
  of_map_after : Grid (ℚ × ℚ)
  of_mask_after : Grid ℚ

/-- Embedding of `inverse_of_map of_map of_mask scale` (lines 36–56): fold
the per-pixel step over the row-major source traversal starting from
all-zero `map_count` and `rev_of_map`, then return the accumulated map and
the mask `(map_count > 0) * 2 - 1` (line 56). -/
def inverse_of_map (h w : ℕ) (of_map : Grid (ℚ × ℚ)) (of_mask : Grid ℚ)
    (scale : ℚ) : InvResult :=
  let st := (rowMajor h w).foldl (invStep h w of_map of_mask scale) invInit
  { rev_of_map := st.rev_of_map
    rev_mask := fun y x => (if 0 < st.map_count y x then (1 : ℚ) else 0) * 2 - 1
    of_map_after := of_map
    of_mask_after := of_mask }

/-! ## `mean_map_of_and_rev_ba` (src/utils.py lines 59–77) -/

/-- Result of `mean_map_of_and_rev_ba`: the consensus mean flow map and
mask, and the caller-visible contents of the four input arrays after the
call (the source copies `of_map` and `rev_of_map_ba` on lines 68 and 70 and
writes only the copies and fresh arrays). -/
structure CombResult where
  mean_map : Grid (ℚ × ℚ)
  mean_map_mask : Grid ℚ
  of_map_after : Grid (ℚ × ℚ)
  of_mask_after : Grid ℚ
  rev_of_map_ba_after : Grid (ℚ × ℚ)
  rev_of_mask_ba_after : Grid ℚ

/-- Embedding of `mean_map_of_and_rev_ba of_map of_mask rev_of_map_ba
rev_of_mask_ba` (lines 59–77): NaN out the invalid pixels of each field on a
copy (lines 68–71), take the per-pixel per-channel NaN-ignoring mean of the
two stacked fields (line 73), derive the mask `-(isnan * 2 - 1)` from
channel 0 (line 74), and replace NaN results with `0` (line 75). -/
def mean_map_of_and_rev_ba (of_map : Grid (ℚ × ℚ)) (of_mask : Grid ℚ)
    (rev_of_map_ba : Grid (ℚ × ℚ)) (rev_of_mask_ba : Grid ℚ) : CombResult :=
  let of_map_nan : Grid (Option ℚ × Option ℚ) := maskToNan of_map of_mask
  let rev_of_map_ba_nan : Grid (Option ℚ × Option ℚ) :=
    maskToNan rev_of_map_ba rev_of_mask_ba
  let mean : Grid (Option ℚ × Option ℚ) := fun y x =>
    (nanmean2 (of_map_nan y x).1 (rev_of_map_ba_nan y x).1,
     nanmean2 (of_map_nan y x).2 (rev_of_map_ba_nan y x).2)
  { mean_map := fun y x => ((mean y x).1.getD 0, (mean y x).2.getD 0)
    mean_map_mask := fun y x =>
      -((if (mean y x).1 = none then (1 : ℚ) else 0) * 2 - 1)
    of_map_after := of_map
    of_mask_after := of_mask
    rev_of_map_ba_after := rev_of_map_ba
    rev_of_mask_ba_after := rev_of_mask_ba }

/-! ## `create_mean_map_ab_ba` (src/utils.py lines 80–93) -/

/-- Embedding of `create_mean_map_ab_ba img mask img_ba mask_ba scale`
(lines 80–93): invert the B→A map, then combine with the A→B map. -/
def create_mean_map_ab_ba (h w : ℕ) (img : Grid (ℚ × ℚ)) (mask : Grid ℚ)
    (img_ba : Grid (ℚ × ℚ)) (mask_ba : Grid ℚ) (scale : ℚ) : CombResult :=
  let inv := inverse_of_map h w img_ba mask_ba scale
  mean_map_of_and_rev_ba img mask inv.rev_of_map inv.rev_mask

/-! ## `calc_variational_inference_map` (src/utils.py lines 96–106) -/

/-- What a call to `calc_variational_inference_map` produces. `outcome` is
`Except.ok ()` for a normal return; `Except.error e` would be a propagated
failure carrying exit code `e`. -/
structure VariationalCallResult where
  shell_command : String
  exit_code : ℤ
  outcome : Except ℤ Unit

/-- Embedding of `calc_variational_inference_map` (lines 96–106). The
invocation of the refinement binary (`os.system`) is abstracted as the
argument `system`, a map from the command line to the process exit status.
The source builds the command string (line 105), runs it, binds the exit
status to the local `exit_code` (line 106), and then falls off the end of
the function: it returns normally (`None` in Python) whatever the exit
status was, raising nothing and returning no failure value. -/
def calc_variational_inference_map (imgA_filename imgB_filename flo_filename
    out_filename dataset : String) (system : String → ℤ) : VariationalCallResult :=
  let shell_command := "./SrcVariational/variational_main " ++ imgA_filename
    ++ " " ++ imgB_filename ++ " " ++ flo_filename ++ " " ++ out_filename
    ++ " -" ++ dataset
  let exit_code := system shell_command
  { shell_command := shell_command
    exit_code := exit_code
    outcome := Except.ok () }

/-! ## Contributor bookkeeping for `inverse_of_map`

The loop of `inverse_of_map` writes to destination `(dy, dx)` exactly at the
source pixels below; they let the incremental running mean be compared with a
batch average over all contributors. -/

/-- Source pixel `p = (y, x)` contributes to destination `(dy, dx)` during
`inverse_of_map`: it is valid (`of_mask[y, x] == 1`, line 48), its rounded
destination passes the acceptance test `0 < rev_x < w and 0 < rev_y < h`
(line 53), and that destination is `(dy, dx)`. -/
def contribTo (h w : ℕ) (of_map : Grid (ℚ × ℚ)) (of_mask : Grid ℚ)
    (scale : ℚ) (dy dx : ℕ) (p : ℕ × ℕ) : Prop :=
  of_mask p.1 p.2 = 1 ∧
  0 < rev_coord scale p.2 (of_map p.1 p.2).1 ∧
  rev_coord scale p.2 (of_map p.1 p.2).1 < (w : ℤ) ∧
  0 < rev_coord scale p.1 (of_map p.1 p.2).2 ∧
  rev_coord scale p.1 (of_map p.1 p.2).2 < (h : ℤ) ∧
  (rev_coord scale p.1 (of_map p.1 p.2).2).toNat = dy ∧
  (rev_coord scale p.2 (of_map p.1 p.2).1).toNat = dx

instance contribTo.decidable (h w : ℕ) (of_map : Grid (ℚ × ℚ))
    (of_mask : Grid ℚ) (scale : ℚ) (dy dx : ℕ) (p : ℕ × ℕ) :
    Decidable (contribTo h w of_map of_mask scale dy dx p) := by
  unfold contribTo
  infer_instance

/-- The flow vectors of the source pixels contributing to destination
`(dy, dx)`, in the row-major order in which the loop of `inverse_of_map`
visits them. -/
def contribFlows (h w : ℕ) (of_map : Grid (ℚ × ℚ)) (of_mask : Grid ℚ)
    (scale : ℚ) (dy dx : ℕ) : List (ℚ × ℚ) :=
  (((rowMajor h w).filter
      (fun p => decide (contribTo h w of_map of_mask scale dy dx p))).map
    (fun p => of_map p.1 p.2))

/-! ## Helper lemmas -/

/-- Reading an updated grid cell back. -/
lemma updateGrid_same {α : Type} (g : Grid α) (y x : ℕ) (v : α) :
    updateGrid g y x v y x = v := by
  simp [updateGrid]

/-- Reading an untouched grid cell after an update elsewhere. -/
lemma updateGrid_other {α : Type} (g : Grid α) (y x y' x' : ℕ) (v : α)
    (hne : ¬(y' = y ∧ x' = x)) : updateGrid g y x v y' x' = g y' x' := by
  simp only [updateGrid, if_neg hne]


/-- A loop iteration at a source pixel that does not contribute to
`(dy, dx)` leaves that destination's counter and running value unchanged. -/
lemma invStep_not_contrib (h w : ℕ) (of_map : Grid (ℚ × ℚ))
    (of_mask : Grid ℚ) (scale : ℚ) (dy dx : ℕ) (st : InvState) (p : ℕ × ℕ)
    (hnc : ¬ contribTo h w of_map of_mask scale dy dx p) :
    (invStep h w of_map of_mask scale st p).map_count dy dx =
        st.map_count dy dx ∧
      (invStep h w of_map of_mask scale st p).rev_of_map dy dx =
        st.rev_of_map dy dx := by
  by_cases hm : of_mask p.1 p.2 = 1
  · by_cases hb : 0 < rev_coord scale p.2 (of_map p.1 p.2).1 ∧
        rev_coord scale p.2 (of_map p.1 p.2).1 < (w : ℤ) ∧
        0 < rev_coord scale p.1 (of_map p.1 p.2).2 ∧
        rev_coord scale p.1 (of_map p.1 p.2).2 < (h : ℤ)
    · have hne : ¬(dy = (rev_coord scale p.1 (of_map p.1 p.2).2).toNat ∧
          dx = (rev_coord scale p.2 (of_map p.1 p.2).1).toNat) := by
        intro he
        exact hnc ⟨hm, hb.1, hb.2.1, hb.2.2.1, hb.2.2.2, he.1.symm, he.2.symm⟩
      simp only [invStep, if_pos hm, if_pos hb]
      exact ⟨updateGrid_other _ _ _ _ _ _ hne, updateGrid_other _ _ _ _ _ _ hne⟩
    · simp only [invStep, if_pos hm, if_neg hb]
      exact ⟨trivial, trivial⟩
  · simp only [invStep, if_neg hm]
    exact ⟨trivial, trivial⟩

/-- A loop iteration at a contributing source pixel bumps the counter at
`(dy, dx)` and applies the running-mean update rule to the value there. -/
lemma invStep_contrib (h w : ℕ) (of_map : Grid (ℚ × ℚ))
    (of_mask : Grid ℚ) (scale : ℚ) (dy dx : ℕ) (st : InvState) (p : ℕ × ℕ)
    (hc : contribTo h w of_map of_mask scale dy dx p) :
    (invStep h w of_map of_mask scale st p).map_count dy dx =
        st.map_count dy dx + 1 ∧
      (invStep h w of_map of_mask scale st p).rev_of_map dy dx =
        ((st.rev_of_map dy dx).1 +
            (-(st.rev_of_map dy dx).1 - (of_map p.1 p.2).1) /
              ((st.map_count dy dx : ℚ) + 1),
          (st.rev_of_map dy dx).2 +
            (-(st.rev_of_map dy dx).2 - (of_map p.1 p.2).2) /
              ((st.map_count dy dx : ℚ) + 1)) := by
  obtain ⟨hm, b1, b2, b3, b4, e1, e2⟩ := hc
  have hb : 0 < rev_coord scale p.2 (of_map p.1 p.2).1 ∧
      rev_coord scale p.2 (of_map p.1 p.2).1 < (w : ℤ) ∧
      0 < rev_coord scale p.1 (of_map p.1 p.2).2 ∧
      rev_coord scale p.1 (of_map p.1 p.2).2 < (h : ℤ) := ⟨b1, b2, b3, b4⟩
  simp only [invStep, if_pos hm, if_pos hb]
  rw [e1, e2]
  refine ⟨updateGrid_same _ _ _ _, ?_⟩
  rw [updateGrid_same]
  have : ((st.map_count dy dx + 1 : ℕ) : ℚ) = (st.map_count dy dx : ℚ) + 1 := by
    push_cast
    ring
  rw [this]

/-- The flow vectors contributed to destination `(dy, dx)` by the source
pixels of an arbitrary traversal prefix `l`, in traversal order. -/
def contribsIn (h w : ℕ) (of_map : Grid (ℚ × ℚ)) (of_mask : Grid ℚ)
    (scale : ℚ) (dy dx : ℕ) (l : List (ℕ × ℕ)) : List (ℚ × ℚ) :=
  ((l.filter (fun p => decide (contribTo h w of_map of_mask scale dy dx p))).map
    (fun p => of_map p.1 p.2))

/-- Invariant of the inversion loop at a fixed destination `(dy, dx)`, for an
arbitrary traversal prefix: the counter equals the number of contributors
seen so far, the running value times that count equals the negated sum of
the contributed flow vectors (componentwise), and the running value is still
`(0, 0)` while nothing has contributed. -/
lemma inv_fold_invariant (h w : ℕ) (of_map : Grid (ℚ × ℚ)) (of_mask : Grid ℚ)
    (scale : ℚ) (dy dx : ℕ) (l : List (ℕ × ℕ)) :
    (l.foldl (invStep h w of_map of_mask scale) invInit).map_count dy dx =
        (contribsIn h w of_map of_mask scale dy dx l).length ∧
      ((l.foldl (invStep h w of_map of_mask scale) invInit).rev_of_map dy dx).1 *
          ((contribsIn h w of_map of_mask scale dy dx l).length : ℚ) =
        -(((contribsIn h w of_map of_mask scale dy dx l).map Prod.fst).sum) ∧
      ((l.foldl (invStep h w of_map of_mask scale) invInit).rev_of_map dy dx).2 *
          ((contribsIn h w of_map of_mask scale dy dx l).length : ℚ) =
        -(((contribsIn h w of_map of_mask scale dy dx l).map Prod.snd).sum) ∧
      ((contribsIn h w of_map of_mask scale dy dx l).length = 0 →
        (l.foldl (invStep h w of_map of_mask scale) invInit).rev_of_map dy dx = (0, 0)) := by
  induction l using List.reverseRecOn with
  | nil => simp [invInit, contribsIn]
  | append_singleton l p ih =>
    obtain ⟨ih1, ih2, ih3, ih4⟩ := ih
    rw [List.foldl_append]
    simp only [List.foldl_cons, List.foldl_nil]
    by_cases hc : contribTo h w of_map of_mask scale dy dx p
    · have hstep := invStep_contrib h w of_map of_mask scale dy dx
        (l.foldl (invStep h w of_map of_mask scale) invInit) p hc
      have hcs : contribsIn h w of_map of_mask scale dy dx (l ++ [p]) =
          contribsIn h w of_map of_mask scale dy dx l ++ [of_map p.1 p.2] := by
        simp [contribsIn, List.filter_append, hc]
      rw [hcs]
      have hkne : ((contribsIn h w of_map of_mask scale dy dx l).length : ℚ) + 1 ≠ 0 := by
        positivity
      refine ⟨?_, ?_, ?_, ?_⟩
      · rw [hstep.1, ih1]
        simp
      · rw [hstep.2, ih1]
        simp only [List.length_append, List.map_append, List.sum_append,
          List.length_cons, List.length_nil, List.map_cons, List.map_nil,
          List.sum_cons, List.sum_nil]
        push_cast
        rw [add_mul, div_mul_cancel₀ _ hkne]
        linear_combination ih2
      · rw [hstep.2, ih1]
        simp only [List.length_append, List.map_append, List.sum_append,
          List.length_cons, List.length_nil, List.map_cons, List.map_nil,
          List.sum_cons, List.sum_nil]
        push_cast
        rw [add_mul, div_mul_cancel₀ _ hkne]
        linear_combination ih3
      · intro hlen
        simp at hlen
    · have hstep := invStep_not_contrib h w of_map of_mask scale dy dx
        (l.foldl (invStep h w of_map of_mask scale) invInit) p hc
      have hcs : contribsIn h w of_map of_mask scale dy dx (l ++ [p]) =
          contribsIn h w of_map of_mask scale dy dx l := by
        simp [contribsIn, List.filter_append, hc]
      rw [hcs, hstep.1, hstep.2]
      exact ⟨ih1, ih2, ih3, ih4⟩

/-- Summing the negated first components negates the sum. -/
lemma sum_map_neg_fst (cs : List (ℚ × ℚ)) :
    ((cs.map (fun v => -v.1)).sum : ℚ) = -((cs.map Prod.fst).sum) := by
  induction cs with
  | nil => simp
  | cons a l ih =>
    simp only [List.map_cons, List.sum_cons, ih]
    ring

/-- Summing the negated second components negates the sum. -/
lemma sum_map_neg_snd (cs : List (ℚ × ℚ)) :
    ((cs.map (fun v => -v.2)).sum : ℚ) = -((cs.map Prod.snd).sum) := by
  induction cs with
  | nil => simp
  | cons a l ih =>
    simp only [List.map_cons, List.sum_cons, ih]
    ring

/-- The contributor list of the full row-major traversal. -/
lemma contribFlows_eq_contribsIn (h w : ℕ) (of_map : Grid (ℚ × ℚ))
    (of_mask : Grid ℚ) (scale : ℚ) (dy dx : ℕ) :
    contribFlows h w of_map of_mask scale dy dx =
      contribsIn h w of_map of_mask scale dy dx (rowMajor h w) := rfl

/-- C2: for every set of `k ≥ 1` valid source pixels that round to the same
in-bounds destination pixel, the running-mean accumulation of
`inverse_of_map` — update rule `rev_of_map[dst] += (-rev_of_map[dst] -
field[y,x]) / count`, applied in row-major source order — yields a
destination flow exactly equal, in exact rational arithmetic, to the
arithmetic mean of the `k` negated source displacement vectors: the
incremental scheme is equivalent to collecting all contributors and
averaging at the end. -/
theorem inverse_of_map_running_mean_eq_batch_mean (h w : ℕ)
    (of_map : Grid (ℚ × ℚ)) (of_mask : Grid ℚ) (scale : ℚ) (dy dx : ℕ)
    (hne : contribFlows h w of_map of_mask scale dy dx ≠ []) :
    (inverse_of_map h w of_map of_mask scale).rev_of_map dy dx =
      (((contribFlows h w of_map of_mask scale dy dx).map (fun v => -v.1)).sum /
          ((contribFlows h w of_map of_mask scale dy dx).length : ℚ),
        ((contribFlows h w of_map of_mask scale dy dx).map (fun v => -v.2)).sum /
          ((contribFlows h w of_map of_mask scale dy dx).length : ℚ)) := by
  obtain ⟨-, ih2, ih3, -⟩ :=
    inv_fold_invariant h w of_map of_mask scale dy dx (rowMajor h w)
  rw [← contribFlows_eq_contribsIn] at ih2 ih3
  have hk : ((contribFlows h w of_map of_mask scale dy dx).length : ℚ) ≠ 0 := by
    exact_mod_cast Nat.pos_iff_ne_zero.mp (List.length_pos.mpr hne)
  have hrev : (inverse_of_map h w of_map of_mask scale).rev_of_map =
      ((rowMajor h w).foldl (invStep h w of_map of_mask scale) invInit).rev_of_map := rfl
  rw [hrev]
  apply Prod.ext
  · rw [sum_map_neg_fst, eq_div_iff hk]
    exact ih2
  · rw [sum_map_neg_snd, eq_div_iff hk]
    exact ih3

/-- C5: a contribution is written to destination `(dy, dx)` only when
`0 < dx < w` and `0 < dy < h` (strict on both sides); at every destination
failing that test — in particular everywhere in row 0 or column 0 — the
inverted output has mask `-1` and flow `(0, 0)`. -/
theorem inverse_of_map_boundary_drop (h w : ℕ) (of_map : Grid (ℚ × ℚ))
    (of_mask : Grid ℚ) (scale : ℚ) (dy dx : ℕ)
    (hout : ¬(0 < dx ∧ dx < w ∧ 0 < dy ∧ dy < h)) :
    (inverse_of_map h w of_map of_mask scale).rev_mask dy dx = -1 ∧
      (inverse_of_map h w of_map of_mask scale).rev_of_map dy dx = (0, 0) := by
  have hnil : contribsIn h w of_map of_mask scale dy dx (rowMajor h w) = [] := by
    unfold contribsIn
    rw [List.map_eq_nil_iff, List.filter_eq_nil_iff]
    intro p _
    simp only [decide_eq_true_eq]
    rintro ⟨-, b1, b2, b3, b4, e1, e2⟩
    exact hout (by omega)
  obtain ⟨ih1, -, -, ih4⟩ :=
    inv_fold_invariant h w of_map of_mask scale dy dx (rowMajor h w)
  rw [hnil] at ih1 ih4
  constructor
  · have hmask : (inverse_of_map h w of_map of_mask scale).rev_mask dy dx =
        (if 0 < ((rowMajor h w).foldl (invStep h w of_map of_mask scale)
            invInit).map_count dy dx then (1 : ℚ) else 0) * 2 - 1 := rfl
    rw [hmask, ih1]
    norm_num
  · exact ih4 rfl

/-- Concrete 3×4 scene for the C2 witness: source pixel (1,1) with flow
(1,0) and source pixel (1,2) with flow (0,0) both land on destination
(1,2). -/
def c2Field : Grid (ℚ × ℚ) := fun y x => if y = 1 ∧ x = 1 then (1, 0) else (0, 0)

/-- Validity mask of the C2 witness scene: exactly (1,1) and (1,2) valid. -/
def c2Mask : Grid ℚ := fun y x => if y = 1 ∧ (x = 1 ∨ x = 2) then 1 else -1

/-- Witness for C2: in the concrete 3×4 scene, destination (1,2) has the two
contributors (1,1) and (1,2), and the accumulated value equals the batch
mean of their negated flows. -/
theorem inverse_of_map_running_mean_witness :
    contribFlows 3 4 c2Field c2Mask 1 1 2 ≠ [] ∧
      (inverse_of_map 3 4 c2Field c2Mask 1).rev_of_map 1 2 =
        (((contribFlows 3 4 c2Field c2Mask 1 1 2).map (fun v => -v.1)).sum /
            ((contribFlows 3 4 c2Field c2Mask 1 1 2).length : ℚ),
          ((contribFlows 3 4 c2Field c2Mask 1 1 2).map (fun v => -v.2)).sum /
            ((contribFlows 3 4 c2Field c2Mask 1 1 2).length : ℚ)) := by
  have hc : contribTo 3 4 c2Field c2Mask 1 1 2 (1, 1) := by
    have hx : rev_coord 1 1 (c2Field 1 1).1 = 2 := by
      norm_num [c2Field, rev_coord]
    have hy : rev_coord 1 1 (c2Field 1 1).2 = 1 := by
      norm_num [c2Field, rev_coord]
    exact ⟨by norm_num [c2Mask], by rw [hx]; norm_num, by rw [hx]; norm_num,
      by rw [hy]; norm_num, by rw [hy]; norm_num, by rw [hy]; rfl, by rw [hx]; rfl⟩
  have hmem : ((1 : ℕ), (1 : ℕ)) ∈ (rowMajor 3 4).filter
      (fun p => decide (contribTo 3 4 c2Field c2Mask 1 1 2 p)) := by
    rw [List.mem_filter]
    exact ⟨by decide, by rw [decide_eq_true_eq]; exact hc⟩
  have hne : contribFlows 3 4 c2Field c2Mask 1 1 2 ≠ [] := by
    unfold contribFlows
    exact List.ne_nil_of_mem (List.mem_map_of_mem _ hmem)
  exact ⟨hne, inverse_of_map_running_mean_eq_batch_mean 3 4 c2Field c2Mask 1 1 2 hne⟩

/-- Witness for C5: in the concrete 3×4 scene, destination row 0 (here
`(0, 2)`) fails the strict boundary test and ends with mask `-1` and flow
`(0, 0)`. -/
theorem inverse_of_map_boundary_drop_witness :
    ¬(0 < 2 ∧ 2 < 4 ∧ 0 < 0 ∧ 0 < 3) ∧
      ((inverse_of_map 3 4 c2Field c2Mask 1).rev_mask 0 2 = -1 ∧
        (inverse_of_map 3 4 c2Field c2Mask 1).rev_of_map 0 2 = (0, 0)) :=
  ⟨by decide, inverse_of_map_boundary_drop 3 4 c2Field c2Mask 1 0 2 (by decide)⟩

/-- Field of the C3 scene: all zero except pixel (y=2, x=3) with flow (1, 1). -/
def c3Field : Grid (ℚ × ℚ) := fun y x => if y = 2 ∧ x = 3 then (1, 1) else (0, 0)

/-- Mask of the C3 scene: all invalid except pixel (y=2, x=3). -/
def c3Mask : Grid ℚ := fun y x => if y = 2 ∧ x = 3 then 1 else -1

/-- Evaluation of the inversion loop on the C3 scene: only source (2, 3)
contributes, writing count 1 and flow (-1, -1) at destination (3, 4). -/
lemma c3_fold : (rowMajor 4 5).foldl (invStep 4 5 c3Field c3Mask 1) invInit =
    { map_count := updateGrid (fun _ _ => 0) 3 4 1
      rev_of_map := updateGrid (fun _ _ => (0, 0)) 3 4 (-1, -1) } := by
  have hl : rowMajor 4 5 = [(0,0),(0,1),(0,2),(0,3),(0,4),(1,0),(1,1),(1,2),(1,3),(1,4),
      (2,0),(2,1),(2,2),(2,3),(2,4),(3,0),(3,1),(3,2),(3,3),(3,4)] := by decide
  rw [hl]
  simp only [List.foldl_cons, List.foldl_nil]
  norm_num [invStep, invInit, c3Field, c3Mask, rev_coord, updateGrid]
  exact ⟨rfl, rfl⟩

/-- C3: on the 4×5 input that is all-invalid except pixel (y=2, x=3) with
mask +1 and flow (1, 1), and scale 1, `inverse_of_map` produces exactly:
destination (row 3, column 4) with mask +1 and flow (-1, -1), and every
other pixel with mask -1 and flow (0, 0). -/
theorem inverse_of_map_single_contributor_literal :
    (inverse_of_map 4 5 c3Field c3Mask 1).rev_mask 3 4 = 1 ∧
      (inverse_of_map 4 5 c3Field c3Mask 1).rev_of_map 3 4 = (-1, -1) ∧
      ∀ y < 4, ∀ x < 5, ¬(y = 3 ∧ x = 4) →
        (inverse_of_map 4 5 c3Field c3Mask 1).rev_mask y x = -1 ∧
          (inverse_of_map 4 5 c3Field c3Mask 1).rev_of_map y x = (0, 0) := by
  have hmask : ∀ y x, (inverse_of_map 4 5 c3Field c3Mask 1).rev_mask y x =
      (if 0 < ((rowMajor 4 5).foldl (invStep 4 5 c3Field c3Mask 1)
          invInit).map_count y x then (1 : ℚ) else 0) * 2 - 1 := fun _ _ => rfl
  have hrev : (inverse_of_map 4 5 c3Field c3Mask 1).rev_of_map =
      ((rowMajor 4 5).foldl (invStep 4 5 c3Field c3Mask 1) invInit).rev_of_map := rfl
  refine ⟨?_, ?_, ?_⟩
  · rw [hmask, c3_fold]
    norm_num [updateGrid]
  · rw [hrev, c3_fold]
    show updateGrid (fun _ _ => ((0 : ℚ), (0 : ℚ))) 3 4 (-1, -1) 3 4 = (-1, -1)
    exact updateGrid_same _ _ _ _
  · intro y hy x hx hne
    have hne' : ¬(y = 3 ∧ x = 4) := hne
    constructor
    · rw [hmask, c3_fold]
      have h0 : updateGrid (fun _ _ => 0) 3 4 1 y x = 0 :=
        updateGrid_other _ _ _ _ _ _ hne'
      simp only [h0]
      norm_num
    · rw [hrev, c3_fold]
      show updateGrid (fun _ _ => ((0 : ℚ), (0 : ℚ))) 3 4 (-1, -1) y x = (0, 0)
      exact updateGrid_other _ _ _ _ _ _ hne'

/-- C4: for every input, every entry of the validity mask returned by each
of the three core operations — `downscale_all`, `inverse_of_map`,
`mean_map_of_and_rev_ba` — is exactly `-1` or exactly `+1`, never `0` and
never any other value. -/
theorem mask_sentinel_invariant (h w : ℕ) (img : Grid (ℚ × ℚ)) (mask : Grid ℚ)
    (downscale : ℕ) (of_map : Grid (ℚ × ℚ)) (of_mask : Grid ℚ) (scale : ℚ)
    (fA fB : Grid (ℚ × ℚ)) (mA mB : Grid ℚ) (y x : ℕ) :
    ((downscale_all h w img mask downscale).mask y x = -1 ∨
        (downscale_all h w img mask downscale).mask y x = 1) ∧
      ((inverse_of_map h w of_map of_mask scale).rev_mask y x = -1 ∨
        (inverse_of_map h w of_map of_mask scale).rev_mask y x = 1) ∧
      ((mean_map_of_and_rev_ba fA mA fB mB).mean_map_mask y x = -1 ∨
        (mean_map_of_and_rev_ba fA mA fB mB).mean_map_mask y x = 1) := by
  refine ⟨?_, ?_, ?_⟩
  · simp only [downscale_all]
    split
    · left
      rfl
    · right
      rfl
  · simp only [inverse_of_map]
    split
    · right
      norm_num
    · left
      norm_num
  · simp only [mean_map_of_and_rev_ba]
    split
    · left
      norm_num
    · right
      norm_num

/-- C8: for every input, the orchestrator `create_mean_map_ab_ba` returns
exactly the composition of `mean_map_of_and_rev_ba` applied to the A→B
field with the `inverse_of_map` of the B→A field — it adds no other
transformation to either the flow field or the mask. -/
theorem create_mean_map_ab_ba_is_composition (h w : ℕ) (img : Grid (ℚ × ℚ))
    (mask : Grid ℚ) (img_ba : Grid (ℚ × ℚ)) (mask_ba : Grid ℚ) (scale : ℚ) :
    create_mean_map_ab_ba h w img mask img_ba mask_ba scale =
      mean_map_of_and_rev_ba img mask
        (inverse_of_map h w img_ba mask_ba scale).rev_of_map
        (inverse_of_map h w img_ba mask_ba scale).rev_mask := rfl

/-- C9: `downscale_all` first crops each spatial dimension to the largest
multiple of the factor (dropping trailing rows/columns) before blocking, so
the output field has shape `floor(h/f) × floor(w/f)`; in particular a 7×7
field with factor 3 yields a 2×2 result. -/
theorem downscale_all_round_down_shape (h w : ℕ) (img : Grid (ℚ × ℚ))
    (mask : Grid ℚ) (downscale : ℕ) (img7 : Grid (ℚ × ℚ)) (mask7 : Grid ℚ) :
    (downscale_all h w img mask downscale).out_h = h / downscale ∧
      (downscale_all h w img mask downscale).out_w = w / downscale ∧
      (downscale_all 7 7 img7 mask7 3).out_h = 2 ∧
      (downscale_all 7 7 img7 mask7 3).out_w = 2 := by
  have key : ∀ n f : ℕ, (n - n % f) / f = n / f := by
    intro n f
    rcases Nat.eq_zero_or_pos f with hf | hf
    · subst hf
      simp [Nat.mod_zero]
    · have hsub : n - n % f = f * (n / f) := by
        have := Nat.mod_add_div n f
        omega
      rw [hsub, Nat.mul_div_cancel_left _ hf]
  exact ⟨key h downscale, key w downscale, key 7 3, key 7 3⟩

/-- C10: `downscale_all` mutates its input flow-field array in place — after
every call, a pixel of the caller's array holds NaN in both channels exactly
when its mask entry is `-1` — while `inverse_of_map` and
`mean_map_of_and_rev_ba` leave all of their input arrays unchanged (the
latter operates only on copies). -/
theorem downscale_mutates_input_invert_combine_do_not (h w : ℕ)
    (img : Grid (ℚ × ℚ)) (mask : Grid ℚ) (downscale : ℕ)
    (of_map : Grid (ℚ × ℚ)) (of_mask : Grid ℚ) (scale : ℚ)
    (fA fB : Grid (ℚ × ℚ)) (mA mB : Grid ℚ) (y x : ℕ) :
    ((downscale_all h w img mask downscale).img_input_after y x =
        ((none : Option ℚ), (none : Option ℚ)) ↔ mask y x = -1) ∧
      (inverse_of_map h w of_map of_mask scale).of_map_after = of_map ∧
      (inverse_of_map h w of_map of_mask scale).of_mask_after = of_mask ∧
      (mean_map_of_and_rev_ba fA mA fB mB).of_map_after = fA ∧
      (mean_map_of_and_rev_ba fA mA fB mB).of_mask_after = mA ∧
      (mean_map_of_and_rev_ba fA mA fB mB).rev_of_map_ba_after = fB ∧
      (mean_map_of_and_rev_ba fA mA fB mB).rev_of_mask_ba_after = mB := by
  refine ⟨?_, rfl, rfl, rfl, rfl, rfl, rfl⟩
  show maskToNan img mask y x = (none, none) ↔ mask y x = -1
  unfold maskToNan
  by_cases hm : mask y x = -1
  · simp [hm]
  · simp [hm]

/-- C1 counterexample: when the external refinement process exits with the
non-zero status 1, `calc_variational_inference_map` still returns normally
(`Except.ok ()`): the caller observes a normal return, not a propagated
failure, refuting the claim at this concrete input. -/
theorem calc_variational_inference_map_swallows_failure_cx :
    (calc_variational_inference_map "imgA.png" "imgB.png" "init.flo" "out.flo"
        "sintel" (fun _ => 1)).exit_code = 1 ∧
      (calc_variational_inference_map "imgA.png" "imgB.png" "init.flo" "out.flo"
        "sintel" (fun _ => 1)).outcome = Except.ok () :=
  ⟨rfl, rfl⟩

/-- C1 amended: `calc_variational_inference_map` binds the exit status of
the external refinement process to a local variable but never propagates
it — for every input and every exit status it returns normally, with no
failure value carrying the exit code. -/
theorem calc_variational_inference_map_returns_normally
    (imgA_filename imgB_filename flo_filename out_filename dataset : String)
    (system : String → ℤ) :
    (calc_variational_inference_map imgA_filename imgB_filename flo_filename
        out_filename dataset system).outcome = Except.ok () ∧
      (calc_variational_inference_map imgA_filename imgB_filename flo_filename
          out_filename dataset system).exit_code =
        system (calc_variational_inference_map imgA_filename imgB_filename
          flo_filename out_filename dataset system).shell_command :=
  ⟨rfl, rfl⟩

/-- C6: `mean_map_of_and_rev_ba` is pointwise: at every pixel whose two mask
entries carry the `±1` sentinels, if both inputs are valid the output flow
is the average of the two flow vectors and the mask is `+1`; if exactly one
is valid the output flow equals that input's flow exactly and the mask is
`+1`; if neither is valid the output mask is `-1` and the flow is `(0, 0)`. -/
theorem mean_map_pointwise_cases (of_map : Grid (ℚ × ℚ)) (of_mask : Grid ℚ)
    (rev_of_map_ba : Grid (ℚ × ℚ)) (rev_of_mask_ba : Grid ℚ) (y x : ℕ)
    (hA : of_mask y x = 1 ∨ of_mask y x = -1)
    (hB : rev_of_mask_ba y x = 1 ∨ rev_of_mask_ba y x = -1) :
    (mean_map_of_and_rev_ba of_map of_mask rev_of_map_ba rev_of_mask_ba).mean_map y x =
        (if of_mask y x = 1 then
          if rev_of_mask_ba y x = 1 then
            (((of_map y x).1 + (rev_of_map_ba y x).1) / 2,
              ((of_map y x).2 + (rev_of_map_ba y x).2) / 2)
          else of_map y x
        else if rev_of_mask_ba y x = 1 then rev_of_map_ba y x else (0, 0)) ∧
      (mean_map_of_and_rev_ba of_map of_mask rev_of_map_ba rev_of_mask_ba).mean_map_mask y x =
        (if of_mask y x = 1 ∨ rev_of_mask_ba y x = 1 then 1 else -1) := by
  rcases hA with h1 | h1 <;> rcases hB with h2 | h2 <;>
    norm_num [mean_map_of_and_rev_ba, maskToNan, nanmean2, h1, h2] <;>
    simp

/-- Constant A→B field for the C6 witness. -/
def c6FieldA : Grid (ℚ × ℚ) := fun _ _ => (2, 3)

/-- Constant inverted B→A field for the C6 witness. -/
def c6FieldB : Grid (ℚ × ℚ) := fun _ _ => (4, 7)

/-- Mask for the C6 witness: column 0 valid in the A→B field. -/
def c6MaskA : Grid ℚ := fun _ x => if x = 0 then 1 else -1

/-- Mask for the C6 witness: row 0 valid in the inverted B→A field. -/
def c6MaskB : Grid ℚ := fun y _ => if y = 0 then 1 else -1

/-- Witness for C6: at pixel (0, 0) both masks are valid and the combined
output is the pointwise case expression. -/
theorem mean_map_pointwise_cases_witness :
    (c6MaskA 0 0 = 1 ∨ c6MaskA 0 0 = -1) ∧
      (c6MaskB 0 0 = 1 ∨ c6MaskB 0 0 = -1) ∧
      ((mean_map_of_and_rev_ba c6FieldA c6MaskA c6FieldB c6MaskB).mean_map 0 0 =
          (if c6MaskA 0 0 = 1 then
            if c6MaskB 0 0 = 1 then
              (((c6FieldA 0 0).1 + (c6FieldB 0 0).1) / 2,
                ((c6FieldA 0 0).2 + (c6FieldB 0 0).2) / 2)
            else c6FieldA 0 0
          else if c6MaskB 0 0 = 1 then c6FieldB 0 0 else (0, 0)) ∧
        (mean_map_of_and_rev_ba c6FieldA c6MaskA c6FieldB c6MaskB).mean_map_mask 0 0 =
          (if c6MaskA 0 0 = 1 ∨ c6MaskB 0 0 = 1 then 1 else -1)) :=
  ⟨by decide, by decide,
    mean_map_pointwise_cases c6FieldA c6MaskA c6FieldB c6MaskB 0 0
      (by decide) (by decide)⟩

/-- The NaN-ignoring mean of an all-NaN slice is NaN. -/
lemma nanmean_all_none (l : List (Option ℚ)) (hl : ∀ a ∈ l, a = none) :
    nanmean l = none := by
  unfold nanmean
  have hnil : l.filterMap id = [] := by
    rw [List.filterMap_eq_nil_iff]
    intro a ha
    rw [hl a ha]
    rfl
  simp [hnil]

/-- With an all-invalid mask the inversion loop never fires, leaving any
starting state unchanged. -/
lemma inv_fold_all_invalid (h w : ℕ) (of_map : Grid (ℚ × ℚ))
    (of_mask : Grid ℚ) (scale : ℚ) (hmask : ∀ y x, of_mask y x = -1)
    (l : List (ℕ × ℕ)) (st : InvState) :
    l.foldl (invStep h w of_map of_mask scale) st = st := by
  induction l generalizing st with
  | nil => rfl
  | cons p l ih =>
    rw [List.foldl_cons]
    have hstep : invStep h w of_map of_mask scale st p = st := by
      unfold invStep
      rw [if_neg]
      rw [hmask p.1 p.2]
      norm_num
    rw [hstep]
    exact ih st

/-- C7: on a field/mask pair with no valid pixel anywhere (every mask entry
`-1`), each core operation — `downscale_all`, `inverse_of_map`, and
`mean_map_of_and_rev_ba` with both inputs carrying that mask — returns
normally (each embedded operation is a total function) with an output mask
that is entirely `-1` and all output flow values `(0, 0)`. -/
theorem degenerate_input_all_invalid (h w : ℕ) (img : Grid (ℚ × ℚ))
    (mask : Grid ℚ) (downscale : ℕ) (of_map fA fB : Grid (ℚ × ℚ)) (scale : ℚ)
    (hmask : ∀ y x, mask y x = -1) :
    (∀ y x, (downscale_all h w img mask downscale).mask y x = -1 ∧
        (downscale_all h w img mask downscale).img y x = (0, 0)) ∧
      (∀ y x, (inverse_of_map h w of_map mask scale).rev_mask y x = -1 ∧
        (inverse_of_map h w of_map mask scale).rev_of_map y x = (0, 0)) ∧
      (∀ y x, (mean_map_of_and_rev_ba fA mask fB mask).mean_map_mask y x = -1 ∧
        (mean_map_of_and_rev_ba fA mask fB mask).mean_map y x = (0, 0)) := by
  have hnan : ∀ (f : Grid (ℚ × ℚ)) (r s : ℕ), maskToNan f mask r s = (none, none) := by
    intro f r s
    simp [maskToNan, hmask]
  have hblock : ∀ (c : Option ℚ × Option ℚ → Option ℚ), c (none, none) = none →
      ∀ i j, nanmean ((List.range downscale).flatMap (fun r =>
        (List.range downscale).map (fun s =>
          c (maskToNan img mask (i * downscale + r) (j * downscale + s))))) = none := by
    intro c hc i j
    apply nanmean_all_none
    intro a ha
    simp only [List.mem_flatMap, List.mem_map, List.mem_range] at ha
    obtain ⟨r, -, s, -, rfl⟩ := ha
    rw [hnan, hc]
  have hfold := inv_fold_all_invalid h w of_map mask scale hmask (rowMajor h w) invInit
  refine ⟨fun y x => ⟨?_, ?_⟩, fun y x => ⟨?_, ?_⟩, fun y x => ⟨?_, ?_⟩⟩
  · show (if nanmean ((List.range downscale).flatMap (fun r =>
        (List.range downscale).map (fun s => Prod.fst
          (maskToNan img mask (y * downscale + r) (x * downscale + s))))) = none
        then (-1 : ℚ) else 1) = -1
    rw [hblock Prod.fst rfl y x]
    rfl
  · show ((nanmean ((List.range downscale).flatMap (fun r =>
          (List.range downscale).map (fun s => Prod.fst
            (maskToNan img mask (y * downscale + r) (x * downscale + s)))))).getD 0,
        (nanmean ((List.range downscale).flatMap (fun r =>
          (List.range downscale).map (fun s => Prod.snd
            (maskToNan img mask (y * downscale + r) (x * downscale + s)))))).getD 0) =
      ((0 : ℚ), (0 : ℚ))
    rw [hblock Prod.fst rfl y x, hblock Prod.snd rfl y x]
    rfl
  · show (if 0 < ((rowMajor h w).foldl (invStep h w of_map mask scale)
        invInit).map_count y x then (1 : ℚ) else 0) * 2 - 1 = -1
    rw [hfold]
    norm_num [invInit]
  · show ((rowMajor h w).foldl (invStep h w of_map mask scale)
        invInit).rev_of_map y x = (0, 0)
    rw [hfold]
    rfl
  · show -((if nanmean2 (maskToNan fA mask y x).1 (maskToNan fB mask y x).1 = none
        then (1 : ℚ) else 0) * 2 - 1) = -1
    rw [hnan fA, hnan fB]
    norm_num [nanmean2]
  · show ((nanmean2 (maskToNan fA mask y x).1 (maskToNan fB mask y x).1).getD 0,
        (nanmean2 (maskToNan fA mask y x).2 (maskToNan fB mask y x).2).getD 0) =
      ((0 : ℚ), (0 : ℚ))
    rw [hnan fA, hnan fB]
    rfl

/-- Arbitrary constant field for the C7 witness. -/
def c7Img : Grid (ℚ × ℚ) := fun _ _ => (5, 6)

/-- The all-invalid mask for the C7 witness. -/
def c7Mask : Grid ℚ := fun _ _ => -1

/-- Witness for C7: with the all-invalid 4×4 inputs, pixel (0, 0) of every
operation's output has mask `-1` and flow `(0, 0)`. -/
theorem degenerate_input_all_invalid_witness :
    (∀ y x : ℕ, c7Mask y x = -1) ∧
      (downscale_all 4 4 c7Img c7Mask 2).mask 0 0 = -1 ∧
      (downscale_all 4 4 c7Img c7Mask 2).img 0 0 = (0, 0) ∧
      (inverse_of_map 4 4 c7Img c7Mask 1).rev_mask 0 0 = -1 ∧
      (inverse_of_map 4 4 c7Img c7Mask 1).rev_of_map 0 0 = (0, 0) ∧
      (mean_map_of_and_rev_ba c7Img c7Mask c7Img c7Mask).mean_map_mask 0 0 = -1 ∧
      (mean_map_of_and_rev_ba c7Img c7Mask c7Img c7Mask).mean_map 0 0 = (0, 0) := by
  have hm : ∀ y x : ℕ, c7Mask y x = -1 := fun _ _ => rfl
  have hthm := degenerate_input_all_invalid 4 4 c7Img c7Mask 2 c7Img c7Img c7Img 1 hm
  exact ⟨hm, (hthm.1 0 0).1, (hthm.1 0 0).2, (hthm.2.1 0 0).1, (hthm.2.1 0 0).2,
    (hthm.2.2 0 0).1, (hthm.2.2 0 0).2⟩
